import Mathlib

/-!
Verification development for the reaction-balancing / E-pH analysis program
(src/app.py).  The computational core is embedded shallowly: Python string
transformations become structurally recursive functions on `List Char`,
floating point arithmetic becomes exact `ℚ` arithmetic, and the fallible
external thermodynamic lookup becomes an `Except`-valued parameter.
-/

namespace ChemEq

/-! ## Formula normalizer (`clean_formula`, src/app.py lines 89-104)

The Python function applies, in order:
1. `re.sub(r'\x5e\x7b?(\d*)([+-])\x7d?', r'\2\1', f)` - caret charge markup,
2. `re.sub(r'_\x7b?(\d+)\x7d?', r'\1', f)` - underscore subscript markup,
3. removal of square brackets,
4. `re.sub(r'(\d+)([+-])', r'\2\1', f)` - digits-then-sign becomes sign-then-digits,
5. an electron-synonym check, and
6. appending `1` to a bare trailing sign.
Each regex substitution is embedded as a left-to-right scan that mirrors the
leftmost, non-overlapping match semantics of Python `re.sub`.
-/

/-- Characters removed by Python `str.strip` (ASCII whitespace). -/
def isPySpace (c : Char) : Bool :=
  c = ' ' || c = '\t' || c = '\n' || c = '\x0d' || c = '\x0b' || c = '\x0c'

/-- Python `str.strip` on a character list. -/
def pyStrip (l : List Char) : List Char :=
  ((l.dropWhile isPySpace).reverse.dropWhile isPySpace).reverse

/-- A charge-sign character. -/
def isSign (c : Char) : Bool := c = '+' || c = '-'

/-- Scanner state for the caret regex `\x5e\x7b?(\d*)([+-])\x7d?`:
`s0` outside a candidate match, `s1` after a caret, `s2` after caret and
opening brace, `s3` inside the digit run (digits held reversed, `brace` records
whether an opening brace was consumed), `s4` after a completed match where an
optional closing brace may still be consumed. -/
inductive CarSt where
  | s0
  | s1
  | s2
  | s3 (brace : Bool) (ds : List Char)
  | s4

/-- Characters consumed so far by a candidate caret match, re-emitted if the
match fails or input ends. -/
def caretPending : CarSt → List Char
  | .s0 => []
  | .s1 => ['^']
  | .s2 => ['^', '{']
  | .s3 b ds => '^' :: ((if b then ['{'] else []) ++ ds.reverse)
  | .s4 => []

/-- One-pass scan implementing `re.sub` for the caret charge pattern. -/
def sub_caret_go : CarSt → List Char → List Char
  | st, [] => caretPending st
  | .s0, c :: cs =>
      if c = '^' then sub_caret_go .s1 cs else c :: sub_caret_go .s0 cs
  | .s1, c :: cs =>
      if c = '{' then sub_caret_go .s2 cs
      else if c.isDigit then sub_caret_go (.s3 false [c]) cs
      else if isSign c then c :: sub_caret_go .s4 cs
      else if c = '^' then '^' :: sub_caret_go .s1 cs
      else '^' :: c :: sub_caret_go .s0 cs
  | .s2, c :: cs =>
      if c.isDigit then sub_caret_go (.s3 true [c]) cs
      else if isSign c then c :: sub_caret_go .s4 cs
      else if c = '^' then '^' :: '{' :: sub_caret_go .s1 cs
      else '^' :: '{' :: c :: sub_caret_go .s0 cs
  | .s3 b ds, c :: cs =>
      if c.isDigit then sub_caret_go (.s3 b (c :: ds)) cs
      else if isSign c then c :: (ds.reverse ++ sub_caret_go .s4 cs)
      else if c = '^' then
        ('^' :: ((if b then ['{'] else []) ++ ds.reverse)) ++ sub_caret_go .s1 cs
      else
        ('^' :: ((if b then ['{'] else []) ++ ds.reverse)) ++ c :: sub_caret_go .s0 cs
  | .s4, c :: cs =>
      if c = '}' then sub_caret_go .s0 cs
      else if c = '^' then sub_caret_go .s1 cs
      else c :: sub_caret_go .s0 cs

/-- Stage 1 of `clean_formula`: the caret charge substitution. -/
def sub_caret (l : List Char) : List Char := sub_caret_go .s0 l

/-- Scanner state for the underscore regex `_\x7b?(\d+)\x7d?`: `s0` outside,
`s1` after an underscore, `s2` after underscore and opening brace, `s3` inside
the (nonempty) digit run.  Once a digit has been read the match can no longer
fail; a closing brace directly after the run is consumed. -/
inductive UsSt where
  | s0
  | s1
  | s2
  | s3 (ds : List Char)

/-- One-pass scan implementing `re.sub` for the underscore subscript pattern. -/
def sub_us_go : UsSt → List Char → List Char
  | .s0, [] => []
  | .s1, [] => ['_']
  | .s2, [] => ['_', '{']
  | .s3 ds, [] => ds.reverse
  | .s0, c :: cs => if c = '_' then sub_us_go .s1 cs else c :: sub_us_go .s0 cs
  | .s1, c :: cs =>
      if c = '{' then sub_us_go .s2 cs
      else if c.isDigit then sub_us_go (.s3 [c]) cs
      else if c = '_' then '_' :: sub_us_go .s1 cs
      else '_' :: c :: sub_us_go .s0 cs
  | .s2, c :: cs =>
      if c.isDigit then sub_us_go (.s3 [c]) cs
      else if c = '_' then '_' :: '{' :: sub_us_go .s1 cs
      else '_' :: '{' :: c :: sub_us_go .s0 cs
  | .s3 ds, c :: cs =>
      if c.isDigit then sub_us_go (.s3 (c :: ds)) cs
      else if c = '}' then ds.reverse ++ sub_us_go .s0 cs
      else if c = '_' then ds.reverse ++ sub_us_go .s1 cs
      else ds.reverse ++ c :: sub_us_go .s0 cs

/-- Stage 2 of `clean_formula`: the underscore subscript substitution. -/
def sub_us (l : List Char) : List Char := sub_us_go .s0 l

/-- Stage 3 of `clean_formula`: removal of square brackets. -/
def rmBrackets (l : List Char) : List Char :=
  l.filter fun c => !(c = '[' || c = ']')

/-- One-pass scan implementing `re.sub` for `(\d+)([+-])`: `run` holds the
pending digit run, reversed.  A sign directly after a nonempty run completes a
match and the sign is emitted before the digits. -/
def sub_ds_go : List Char → List Char → List Char
  | run, [] => run.reverse
  | run, c :: cs =>
      if c.isDigit then sub_ds_go (c :: run) cs
      else if isSign c && !run.isEmpty then c :: (run.reverse ++ sub_ds_go [] cs)
      else run.reverse ++ c :: sub_ds_go [] cs

/-- Stage 4 of `clean_formula`: the digits-then-sign substitution. -/
def sub_ds (l : List Char) : List Char := sub_ds_go [] l

/-- ASCII lowering, modelling Python `str.lower` on the characters relevant to
the electron-synonym check. -/
def pyLower (c : Char) : Char :=
  if 'A' ≤ c && c ≤ 'Z' then Char.ofNat (c.toNat + 32) else c

/-- The electron synonyms checked at line 100 of src/app.py. -/
def eForms : List (List Char) :=
  [['e'], ['e', '-'], ['e', '-', '1'], ['e', 'l', 'e', 'c', 't', 'r', 'o', 'n']]

/-- The last component of Python `f.split(sep)`: the suffix after the final
occurrence of `sep` (the whole string when `sep` is absent). -/
def afterLast (sep : Char) (l : List Char) : List Char :=
  (l.reverse.takeWhile fun x => x ≠ sep).reverse

/-- One of the two trailing-sign checks of lines 102-103: append `1` when the
string ends in `sgn` and the part after the last `sgn` has no digit. -/
def addCharge (sgn : Char) (l : List Char) : List Char :=
  if l.getLast? = some sgn ∧ ¬ (afterLast sgn l).any Char.isDigit then l ++ ['1'] else l

/-- Lines 102-103: the `+` check, then the `-` check on its result. -/
def addChargeOne (l : List Char) : List Char := addCharge '-' (addCharge '+' l)

/-- `clean_formula` (src/app.py lines 89-104) on a character list: strip, the
three substitutions with bracket removal between them, the electron-synonym
check, then the trailing-sign completion. -/
def cleanList (l : List Char) : List Char :=
  if (sub_ds (rmBrackets (sub_us (sub_caret (pyStrip l))))).map pyLower ∈ eForms then
    ['e', '-', '1']
  else addChargeOne (sub_ds (rmBrackets (sub_us (sub_caret (pyStrip l)))))

/-- `clean_formula` on strings. -/
def clean_formula (s : String) : String := String.mk (cleanList s.data)

/-! ## Registration handler (src/app.py lines 158-230) -/

/-- Line 189: each side list is converted to a Python set before it is handed
to the balancer, so repeated species within a side collapse silently. -/
def py_set (l : List String) : Finset String := l.toFinset

/-- A coefficient as returned by the external balancer: either a plain integer
(no `free_symbols` attribute) or a symbolic expression in free parameters,
represented by its evaluation function (`subs` of an assignment). -/
inductive BalCoeff where
  | pyInt (n : ℤ)
  | symExpr (eval : (String → ℤ) → ℤ)

/-- `to_int_d` (lines 191-192): a symbolic coefficient is evaluated with every
free symbol substituted by 1; a plain integer is kept. -/
def to_int_d (d : List (String × BalCoeff)) : List (String × ℤ) :=
  d.map fun kv =>
    (kv.1, match kv.2 with
      | .pyInt n => n
      | .symExpr e => e fun _ => 1)

/-- The exact keys of the dict `new_row` built by the registration handler
(lines 218-226); this is everything the handler returns per reaction. -/
def new_row_keys : List String :=
  ["元の式", "バランス済み", "E0 (V)", "dH (kJ/mol)", "dS (J/mol·K)", "n", "m"]

/-- `dg_est` (line 215): ΔG = ΔH·1000 − 298.15·ΔS. -/
def dg_est (dh ds : ℚ) : ℚ := dh * 1000 - (29815 / 100) * ds

/-- `e0_est` (lines 213-216): initialized to 0.0 and overwritten with
−ΔG/(n·96485) only when the electron count is positive. -/
def e0_est (dh ds : ℚ) (n : ℕ) : ℚ :=
  if 0 < n then -(dg_est dh ds) / (n * 96485) else 0

/-- The formula the spec states for the same quantity, with the Faraday
constant F = 96485.3 C/mol, for comparison against the code's constant. -/
def e0_spec_formula (dh ds : ℚ) (n : ℕ) : ℚ :=
  if 0 < n then -(dg_est dh ds) / (n * (964853 / 10)) else 0

/-- `e_line` (line 267): the plotted Nernst line E0 − (0.0592·m/n)·pH. -/
def e_line (e0 : ℚ) (m : ℤ) (n : ℕ) (pH : ℚ) : ℚ :=
  e0 - ((592 / 10000) * m / n) * pH

/-! ## Thermodynamic lookup (src/app.py lines 22-48 and 121-134) -/

/-- The built-in database `THERMO_DB` (lines 22-48), values (h, s) in
kJ/mol and J/mol·K. -/
def THERMO_DB : List (String × ℚ × ℚ) :=
  [("H2O", (-2858/10, 699/10)), ("H+1", (0, 0)), ("OH-1", (-230, -108/10)),
   ("O2", (0, 2051/10)), ("H2", (0, 1307/10)), ("e-1", (0, 0)),
   ("Fe", (0, 273/10)), ("Fe+2", (-891/10, -1377/10)), ("Fe+3", (-485/10, -3159/10)),
   ("Fe(OH)2", (-569, 88)), ("Fe(OH)3", (-823, 1067/10)), ("Fe3O4", (-11184/10, 1464/10)),
   ("Fe2O3", (-8242/10, 874/10)), ("FeCl2", (-3418/10, 1179/10)), ("FeCl3", (-3995/10, 1423/10)),
   ("Cl-1", (-1672/10, 565/10)),
   ("Cu", (0, 331/10)), ("Cu+2", (648/10, -996/10)), ("CuO", (-1573/10, 426/10)),
   ("Zn", (0, 416/10)), ("Zn+2", (-1533/10, -1121/10)), ("ZnO", (-3505/10, 437/10))]

/-- `get_thermo_data` (lines 121-134).  `hasThermo` models the `HAS_THERMO`
guard set by the import attempt of lines 11-15; `chemical` models the `Chemical(species)` lookup of
the optional external library, returning `(Hf298, S0)` in J/mol on success and
`Except.error` for a raised exception.  The code divides `Hf298` by 1000, and
its bare `except: pass` turns any exception into the `(0.0, 0.0)` fallback.
The result type is `Except` so that the absence of an escaping exception is a
theorem rather than a typing accident. -/
def get_thermo_data (hasThermo : Bool) (chemical : String → Except String (ℚ × ℚ))
    (species : String) : Except String (ℚ × ℚ) :=
  match THERMO_DB.lookup species with
  | some hs => .ok hs
  | none =>
      if hasThermo then
        match chemical species with
        | .ok hs => .ok (hs.1 / 1000, hs.2)
        | .error _ => .ok (0, 0)
      else .ok (0, 0)

/-! ## Composition table for the C1 reaction -/

/-- Modelled from the spec: the elemental composition and charge (key `"q"`)
that the external balancer assigns to a species identifier written as a formula
with an optional trailing signed integer charge.  Only the identifiers
occurring in the C1 reaction are tabulated; `"MnO-4"` is the identifier the
code's normalizer actually produces for the permanganate token, `"MnO4-1"` the
one the spec's normalization rules (§4.1) would produce. -/
def elemCount : String → String → ℤ
  | "MnO-4", "Mn" => 1
  | "MnO-4", "O" => 1
  | "MnO-4", "q" => -4
  | "MnO4-1", "Mn" => 1
  | "MnO4-1", "O" => 4
  | "MnO4-1", "q" => -1
  | "H+1", "H" => 1
  | "H+1", "q" => 1
  | "e-1", "q" => -1
  | "Mn+2", "Mn" => 1
  | "Mn+2", "q" => 2
  | "H2O", "H" => 2
  | "H2O", "O" => 1
  | _, _ => 0

/-- Total count of one element (or total charge) on one side, coefficients
weighted. -/
def sideTotal (side : List (String × ℤ)) (el : String) : ℤ :=
  (side.map fun sc => sc.2 * elemCount sc.1 el).sum

/-- Conservation check for the C1 reaction: every element and the total charge
must agree across the two sides. -/
def conservedAll (rs ps : List (String × ℤ)) : Bool :=
  ["Mn", "O", "H", "q"].all fun el => sideTotal rs el == sideTotal ps el

/-! ## Phase-stability diagram engine (spec §4.6; absent from src/app.py) -/

/-- Modelled from the spec: a candidate phase of the diagram engine (§4.6) -
identifier, free energy of formation, electron stoichiometry `z`, proton
stoichiometry `k`, optional fixed log-activity. -/
structure Phase where
  name : String
  gf : ℚ
  z : ℤ
  k : ℤ
  logActivity : Option ℚ

instance : Inhabited Phase := ⟨⟨"", 0, 0, 0, none⟩⟩

/-- Modelled from the spec: the per-phase potential function
Ψ(pH, E) = Gf/F + activity_term − z·E − k·S·pH, with activity_term 0 for
solids and (log10 activity)·S for dissolved species (§4.6). -/
def psi (S F : ℚ) (p : Phase) (pH E : ℚ) : ℚ :=
  p.gf / F + (match p.logActivity with | some a => a * S | none => 0)
    - p.z * E - p.k * S * pH

/-- Index and value of the first minimal entry of a list (the argmin with
first-wins tie-breaking, as in a per-cell `argmin` over phase Ψ values). -/
def argminVal : List ℚ → Option (ℕ × ℚ)
  | [] => none
  | x :: t =>
      match argminVal t with
      | none => some (0, x)
      | some (i, v) => if x ≤ v then some (0, x) else some (i + 1, v)

/-- Modelled from the spec: the dominant phase at one grid cell is the index
minimizing Ψ over the candidate phases (§4.6 "Dominance"). -/
def dominantIdx (S F : ℚ) (phases : List Phase) (pH E : ℚ) : ℕ :=
  match argminVal (phases.map fun p => psi S F p pH E) with
  | some iv => iv.1
  | none => 0

/-- Modelled from the spec: the Dominance Map - one phase index per grid cell,
over the product of the two coordinate axes (§4.6, Data Model "Dominance
Map"). -/
def dominance_map (S F : ℚ) (phases : List Phase) (pHs Es : List ℚ) :
    List (List ℕ) :=
  pHs.map fun pH => Es.map fun E => dominantIdx S F phases pH E

/-! ## Claim theorems -/

/-- Claim C1.  The spec's reaction `MnO4- + 8H+1 + 5e-1 -> Mn+2 + 4H2O` (also
the code's own placeholder example, line 155) cannot balance to the claimed
coefficients: `clean_formula` rewrites the permanganate token `MnO4-` into
`MnO-4`, i.e. the subscript 4 is read as a charge magnitude, so the balancer
sees a −4 ion; under that composition the claimed coefficients {1, 8, 5 | 1, 4}
violate conservation, while under the spec's intended normalization `MnO4-1`
they conserve every element and the charge. -/
theorem C1_mno4_normalization_bug :
    clean_formula "MnO4-" = "MnO-4" ∧
      conservedAll [("MnO-4", 1), ("H+1", 8), ("e-1", 5)]
        [("Mn+2", 1), ("H2O", 4)] = false ∧
      conservedAll [("MnO4-1", 1), ("H+1", 8), ("e-1", 5)]
        [("Mn+2", 1), ("H2O", 4)] = true := by
  refine ⟨by decide, by decide, by decide⟩

/-- Claim C2, counterexample.  The handler's returned record has no
`underdetermined` flag: its keys are exactly the seven of `new_row` (lines
218-226). -/
theorem C2_no_underdetermined_flag : "underdetermined" ∉ new_row_keys := by
  decide

/-- Claim C2, amended.  `to_int_d` resolves an under-determined balance by
substituting 1 for every free symbol of a symbolic coefficient (deterministic,
not an error), but the caller is not informed: the returned row carries no
`underdetermined` key. -/
theorem C2_free_params_fixed_to_one :
    (∀ (d : List (String × BalCoeff)) (k : String) (e : (String → ℤ) → ℤ),
        (k, BalCoeff.symExpr e) ∈ d → (k, e fun _ => 1) ∈ to_int_d d) ∧
      "underdetermined" ∉ new_row_keys := by
  constructor
  · intro d k e hm
    exact List.mem_map.mpr ⟨(k, .symExpr e), hm, rfl⟩
  · decide

/-- Witness for C2: a concrete one-entry dict with a symbolic coefficient. -/
theorem C2_free_params_witness :
    ((("x", BalCoeff.symExpr fun σ => σ "t")
        ∈ [("x", BalCoeff.symExpr fun σ => σ "t")]) ∧
      ("x", (1 : ℤ)) ∈ to_int_d [("x", BalCoeff.symExpr fun σ => σ "t")]) ∧
      "underdetermined" ∉ new_row_keys :=
  ⟨⟨List.mem_cons_self _ _,
    C2_free_params_fixed_to_one.1 _ "x" (fun σ => σ "t") (List.mem_cons_self _ _)⟩,
    C2_free_params_fixed_to_one.2⟩

/-- Claim C3, counterexample.  The handler performs no spontaneity
classification at all: none of the three labels occurs among its outputs, whose
keys are exactly the seven of `new_row`. -/
theorem C3_no_classification :
    "spontaneous" ∉ new_row_keys ∧ "non-spontaneous" ∉ new_row_keys ∧
      "equilibrium" ∉ new_row_keys ∧ new_row_keys.length = 7 := by
  decide

/-- Claim C3, amended.  The registration handler classifies nothing: no
spontaneity label is among its outputs, and ΔG is not even computed unless the
electron count is positive (it exists only as the intermediate of `e0_est`). -/
theorem C3_no_spontaneity_output :
    (∀ lbl ∈ (["spontaneous", "non-spontaneous", "equilibrium"] : List String),
        lbl ∉ new_row_keys) ∧
      ∀ dh ds : ℚ, e0_est dh ds 0 = 0 := by
  refine ⟨by decide, fun dh ds => rfl⟩

/-- Witness for C3 at the label "spontaneous" and at n = 0. -/
theorem C3_no_spontaneity_witness :
    ("spontaneous" ∈ (["spontaneous", "non-spontaneous", "equilibrium"] : List String) ∧
      "spontaneous" ∉ new_row_keys) ∧ e0_est 1 1 0 = 0 :=
  ⟨⟨by decide, C3_no_spontaneity_output.1 "spontaneous" (by decide)⟩,
    C3_no_spontaneity_output.2 1 1⟩

/-- Claim C4, counterexample.  The code divides by 96485, not by the spec's
F = 96485.3: at ΔH = 96485 kJ/mol, ΔS = 0, n = 1 the two formulas disagree. -/
theorem C4_faraday_constant_differs :
    e0_est 96485 0 1 ≠ e0_spec_formula 96485 0 1 := by
  norm_num [e0_est, e0_spec_formula, dg_est]

/-- Claim C4, amended.  For n > 0 the handler computes E0 = −ΔG/(n·96485)
(Faraday constant 96485, not 96485.3); for n = 0 the value stays the 0.0
default; and whenever ΔG ≠ 0 the code's value differs from the spec's
F = 96485.3 formula. -/
theorem C4_e0_formula (dh ds : ℚ) (n : ℕ) (hn : 0 < n) :
    e0_est dh ds n = -(dg_est dh ds) / (n * 96485) ∧
      e0_est dh ds 0 = 0 ∧
      (dg_est dh ds ≠ 0 → e0_est dh ds n ≠ e0_spec_formula dh ds n) := by
  have hn' : ((n : ℚ)) ≠ 0 := Nat.cast_ne_zero.mpr hn.ne'
  refine ⟨by rw [e0_est, if_pos hn], rfl, fun hdg heq => ?_⟩
  rw [e0_est, e0_spec_formula, if_pos hn, if_pos hn] at heq
  rw [div_eq_div_iff (by positivity) (by positivity)] at heq
  have : (dg_est dh ds) * (n : ℚ) * 3 = 0 := by ring_nf at heq ⊢; linarith
  rcases mul_eq_zero.mp this with h | h
  · exact hdg (by rcases mul_eq_zero.mp h with h2 | h2; exact h2; exact absurd h2 hn')
  · norm_num at h

/-- Witness for C4 at ΔH = 96485, ΔS = 0, n = 1. -/
theorem C4_e0_formula_witness :
    0 < 1 ∧ e0_est 96485 0 1 = -(dg_est 96485 0) / (1 * 96485) ∧
      e0_est 96485 0 0 = 0 ∧ dg_est 96485 0 ≠ 0 ∧
      e0_est 96485 0 1 ≠ e0_spec_formula 96485 0 1 :=
  ⟨by decide, (C4_e0_formula 96485 0 1 one_pos).1, (C4_e0_formula 96485 0 1 one_pos).2.1,
    by norm_num [dg_est], (C4_e0_formula 96485 0 1 one_pos).2.2 (by norm_num [dg_est])⟩

/-- Claim C5, counterexample.  A duplicated reactant does not raise a
`DuplicateSpecies` error; the `set()` conversion of line 189 collapses it
silently before balancing. -/
theorem C5_duplicates_collapse :
    py_set ["H2O", "H2O"] = py_set ["H2O"] ∧
      (["H2O", "H2O"] : List String) ≠ ["H2O"] := by
  constructor
  · decide
  · decide

/-- Claim C5, amended.  Duplicates within a side are always merged silently by
the `set()` conversion: a repeated head never changes the set the balancer
receives, and there is no `DuplicateSpecies` failure channel. -/
theorem C5_set_conversion_dedups (x : String) (l : List String) :
    py_set (x :: x :: l) = py_set (x :: l) := by
  simp [py_set, List.toFinset_cons]

/-- Claim C6.  A species absent from the built-in table whose external lookup
raises (the only failure mode of `Chemical`) yields exactly (0, 0), with no
escaping exception. -/
theorem C6_missing_species_defaults_zero (hasThermo : Bool)
    (chemical : String → Except String (ℚ × ℚ)) (species : String)
    (hdb : THERMO_DB.lookup species = none)
    (hext : ∀ v, chemical species ≠ Except.ok v) :
    get_thermo_data hasThermo chemical species = Except.ok (0, 0) := by
  rw [get_thermo_data, hdb]
  cases hasThermo with
  | false => rfl
  | true =>
      cases h : chemical species with
      | ok v => exact absurd h (hext v)
      | error e => rfl

/-- Witness for C6 at a species unknown to the database with a raising external
lookup. -/
theorem C6_missing_species_witness :
    THERMO_DB.lookup "Xq9" = none ∧
      get_thermo_data true (fun _ => Except.error "not found") "Xq9" =
        Except.ok (0, 0) :=
  ⟨by decide,
    C6_missing_species_defaults_zero true (fun _ => Except.error "not found") "Xq9"
      (by decide) (fun v h => by cases h)⟩

/-- Claim C7.  The plotted Nernst line at n = 5, E0 = 1.51 V, m = 8, pH = 7 is
exactly E0 − (0.0592·m/n)·pH and lies within 0.01 V of 0.846 V. -/
theorem C7_nernst_line_value :
    e_line (151/100) 8 5 7 = 151/100 - ((592/10000) * 8 / 5) * 7 ∧
      |e_line (151/100) 8 5 7 - 846/1000| < 1/100 := by
  constructor
  · norm_num [e_line]
  · rw [abs_sub_lt_iff]
    norm_num [e_line]

/-- Claim C9.  `get_thermo_data` is total: for every species, every state of
the import guard and every (possibly raising) external lookup it returns a pair
of numbers - no exception escapes the bare `except`. -/
theorem C9_get_thermo_data_total (hasThermo : Bool)
    (chemical : String → Except String (ℚ × ℚ)) (species : String) :
    ∃ hv sv : ℚ, get_thermo_data hasThermo chemical species = Except.ok (hv, sv) := by
  rw [get_thermo_data]
  cases h : THERMO_DB.lookup species with
  | some hs => exact ⟨hs.1, hs.2, rfl⟩
  | none =>
      cases hasThermo with
      | false => exact ⟨0, 0, rfl⟩
      | true =>
          cases hc : chemical species with
          | ok v => exact ⟨v.1 / 1000, v.2, rfl⟩
          | error e => exact ⟨0, 0, rfl⟩

/-! ## Argmin lemmas for the dominance map -/

theorem argminVal_of_ne_nil (l : List ℚ) (hne : l ≠ []) :
    ∃ i v, argminVal l = some (i, v) := by
  cases l with
  | nil => exact absurd rfl hne
  | cons x t =>
      cases h : argminVal t with
      | none => exact ⟨0, x, by simp [argminVal, h]⟩
      | some p =>
          rcases p with ⟨i, v⟩
          by_cases hx : x ≤ v
          · exact ⟨0, x, by simp [argminVal, h, hx]⟩
          · exact ⟨i + 1, v, by simp [argminVal, h, hx]⟩

theorem argminVal_min (l : List ℚ) (i : ℕ) (v : ℚ)
    (h : argminVal l = some (i, v)) :
    i < l.length ∧ l.getD i 0 = v ∧ ∀ j, j < l.length → v ≤ l.getD j 0 := by
  induction l generalizing i v with
  | nil => simp [argminVal] at h
  | cons x t ih =>
      cases ht : argminVal t with
      | none =>
          have ht0 : t = [] := by
            cases t with
            | nil => rfl
            | cons y u =>
                cases hu : argminVal u with
                | none => simp [argminVal, hu] at ht
                | some q =>
                    rcases q with ⟨a, b⟩
                    by_cases hy : y ≤ b <;> simp [argminVal, hu, hy] at ht
          subst ht0
          simp [argminVal] at h
          obtain ⟨hi, hv⟩ := h
          subst hi; subst hv
          refine ⟨by simp, rfl, ?_⟩
          intro j hj
          cases j with
          | zero => simp
          | succ j => simp at hj
      | some p =>
          rcases p with ⟨a, b⟩
          obtain ⟨ha, hb, hmin⟩ := ih a b ht
          by_cases hx : x ≤ b
          · simp only [argminVal, ht, if_pos hx, Option.some.injEq, Prod.mk.injEq] at h
            obtain ⟨hi, hv⟩ := h
            subst hi; subst hv
            refine ⟨by simp, rfl, ?_⟩
            intro j hj
            cases j with
            | zero => simp
            | succ j =>
                rw [List.getD_cons_succ]
                exact le_trans hx (hmin j (by simpa using hj))
          · simp only [argminVal, ht, if_neg hx, Option.some.injEq, Prod.mk.injEq] at h
            obtain ⟨hi, hv⟩ := h
            subst hi; subst hv
            refine ⟨by simpa using ha, by simpa using hb, ?_⟩
            intro j hj
            cases j with
            | zero => simpa using (le_of_lt (lt_of_not_le hx))
            | succ j =>
                rw [List.getD_cons_succ]
                exact hmin j (by simpa using hj)

theorem getD_map_of_lt {α β : Type} (f : α → β) (l : List α) (i : ℕ) (d : β)
    (d0 : α) (h : i < l.length) : (l.map f).getD i d = f (l.getD i d0) := by
  rw [List.getD_eq_getElem?_getD, List.getD_eq_getElem?_getD, List.getElem?_map,
    List.getElem?_eq_getElem h]
  rfl

/-- Claim C8.  In the dominance map, the entry of every grid cell (i, j) is the
`dominantIdx` at the cell's coordinates; that index is a valid phase index and
its phase attains the minimal Ψ among all candidate phases at that cell - the
argmin property of the lower envelope. -/
theorem C8_dominance_map_argmin (S F : ℚ) (phases : List Phase)
    (pHs Es : List ℚ) (i j : ℕ) (hph : phases ≠ [])
    (hi : i < pHs.length) (hj : j < Es.length) :
    ((dominance_map S F phases pHs Es).getD i []).getD j 0
        = dominantIdx S F phases (pHs.getD i 0) (Es.getD j 0) ∧
      dominantIdx S F phases (pHs.getD i 0) (Es.getD j 0) < phases.length ∧
      ∀ q, q < phases.length →
        psi S F (phases.getD (dominantIdx S F phases (pHs.getD i 0) (Es.getD j 0)) default)
            (pHs.getD i 0) (Es.getD j 0)
          ≤ psi S F (phases.getD q default) (pHs.getD i 0) (Es.getD j 0) := by
  refine ⟨?_, ?_⟩
  · rw [dominance_map, getD_map_of_lt _ pHs i [] 0 hi,
      getD_map_of_lt _ Es j 0 0 hj]
  · set pH := pHs.getD i 0
    set E := Es.getD j 0
    have hvals : (phases.map fun p => psi S F p pH E) ≠ [] := by
      simpa [List.map_eq_nil_iff] using hph
    obtain ⟨a, v, hav⟩ := argminVal_of_ne_nil _ hvals
    obtain ⟨ha, hb, hmin⟩ := argminVal_min _ a v hav
    have hidx : dominantIdx S F phases pH E = a := by
      rw [dominantIdx, hav]
    rw [List.length_map] at ha
    refine ⟨by rw [hidx]; exact ha, ?_⟩
    intro q hq
    rw [hidx]
    have h1 : psi S F (phases.getD a default) pH E = v := by
      rw [← hb, getD_map_of_lt _ phases a 0 default ha]
    have h2 : psi S F (phases.getD q default) pH E
        = (phases.map fun p => psi S F p pH E).getD q 0 := by
      rw [getD_map_of_lt _ phases q 0 default hq]
    rw [h1, h2]
    exact hmin q (by simpa using hq)

/-- The two phases of the C8 witness: a neutral reference phase and a charged
phase of lower free energy. -/
def phaseA : Phase := ⟨"A", 0, 0, 0, none⟩

def phaseB : Phase := ⟨"B", -100000, 2, 0, none⟩

/-- Witness for C8 on a concrete two-phase, one-cell grid. -/
theorem C8_dominance_map_witness :
    ([phaseA, phaseB] ≠ [] ∧ 0 < 1 ∧ 0 < 1) ∧
      (((dominance_map (592/10000) 96485 [phaseA, phaseB] [7] [1]).getD 0 []).getD 0 0
          = dominantIdx (592/10000) 96485 [phaseA, phaseB] 7 1 ∧
        dominantIdx (592/10000) 96485 [phaseA, phaseB] 7 1 < 2 ∧
        psi (592/10000) 96485
            ([phaseA, phaseB].getD (dominantIdx (592/10000) 96485 [phaseA, phaseB] 7 1) default) 7 1
          ≤ psi (592/10000) 96485 phaseA 7 1 ∧
        psi (592/10000) 96485
            ([phaseA, phaseB].getD (dominantIdx (592/10000) 96485 [phaseA, phaseB] 7 1) default) 7 1
          ≤ psi (592/10000) 96485 phaseB 7 1) := by
  have h := C8_dominance_map_argmin (592/10000) 96485 [phaseA, phaseB] [7] [1] 0 0
    (List.cons_ne_nil _ _) (by simp) (by simp)
  refine ⟨⟨List.cons_ne_nil _ _, Nat.one_pos, Nat.one_pos⟩,
    ?_, ?_, ?_, ?_⟩
  · simpa using h.1
  · simpa using h.2.1
  · simpa using h.2.2 0 (by simp)
  · simpa using h.2.2 1 (by simp)

/-! ## Fixed points of the normalizer (for claim C10) -/

theorem sub_caret_id (l : List Char) (h : '^' ∉ l) : sub_caret l = l := by
  rw [sub_caret]
  induction l with
  | nil => rfl
  | cons c cs ih =>
      have hc : ¬ c = '^' := fun hc => h (hc ▸ List.mem_cons_self c cs)
      rw [sub_caret_go, if_neg hc, ih (fun hm => h (List.mem_cons_of_mem c hm))]

theorem sub_us_id (l : List Char) (h : '_' ∉ l) : sub_us l = l := by
  rw [sub_us]
  induction l with
  | nil => rfl
  | cons c cs ih =>
      have hc : ¬ c = '_' := fun hc => h (hc ▸ List.mem_cons_self c cs)
      rw [sub_us_go, if_neg hc, ih (fun hm => h (List.mem_cons_of_mem c hm))]

theorem rmBrackets_id (l : List Char) (h1 : '[' ∉ l) (h2 : ']' ∉ l) :
    rmBrackets l = l := by
  rw [rmBrackets, List.filter_eq_self]
  intro a ha
  have d1 : decide (a = '[') = false := decide_eq_false (fun hc => h1 (hc ▸ ha))
  have d2 : decide (a = ']') = false := decide_eq_false (fun hc => h2 (hc ▸ ha))
  simp [d1, d2]

/-- No digit is immediately followed by a sign anywhere in the list (so the
stage-4 regex has no match). -/
def noDS : List Char → Bool
  | c :: s :: t => !(c.isDigit && isSign s) && noDS (s :: t)
  | _ => true

theorem noDS_tail (c : Char) (l : List Char) (h : noDS (c :: l) = true) :
    noDS l = true := by
  cases l with
  | nil => rfl
  | cons s t => exact (Bool.and_eq_true_iff.mp h).2

theorem sub_ds_go_full (l run : List Char)
    (hrun : ∀ c ∈ run, c.isDigit = true) (hl : noDS l = true)
    (hjoin : run = [] ∨ ∀ s, l.head? = some s → isSign s = false) :
    sub_ds_go run l = run.reverse ++ l := by
  induction l generalizing run with
  | nil => simp [sub_ds_go]
  | cons c cs ih =>
      rw [sub_ds_go]
      by_cases hd : c.isDigit
      · rw [if_pos hd]
        have hcs : ∀ s, cs.head? = some s → isSign s = false := by
          intro s hs
          cases cs with
          | nil => cases hs
          | cons s2 t =>
              obtain rfl : s2 = s := by cases hs; rfl
              have := (Bool.and_eq_true_iff.mp hl).1
              simp only [hd, Bool.true_and, Bool.not_eq_eq_eq_not, Bool.not_true] at this
              exact this
        have := ih (c :: run)
          (fun x hx => by
            rcases List.mem_cons.mp hx with rfl | hx
            · exact hd
            · exact hrun x hx)
          (noDS_tail c cs hl) (Or.inr hcs)
        rw [this]
        simp
      · rw [if_neg hd]
        have hsign : (isSign c && !run.isEmpty) = false := by
          rcases hjoin with rfl | hj
          · simp
          · rw [hj c rfl]
            rfl
        rw [if_neg (by rw [hsign]; exact Bool.false_ne_true)]
        have := ih [] (by simp) (noDS_tail c cs hl) (Or.inl rfl)
        rw [this]
        simp

theorem sub_ds_id (l : List Char) (h : noDS l = true) : sub_ds l = l := by
  simpa using sub_ds_go_full l [] (by simp) h (Or.inl rfl)

theorem addCharge_id (sgn : Char) (l : List Char) (h : l.getLast? ≠ some sgn) :
    addCharge sgn l = l := by
  rw [addCharge, if_neg]
  intro hc
  exact h hc.1

/-- A token already in canonical form: stripped, free of caret, underscore and
square-bracket markup, with no digit immediately followed by a sign, not a
non-canonical electron synonym, and not ending in a bare sign.  On such tokens
every stage of `clean_formula` is the identity. -/
def canonicalTok (t : List Char) : Prop :=
  pyStrip t = t ∧ '^' ∉ t ∧ '_' ∉ t ∧ '[' ∉ t ∧ ']' ∉ t ∧ noDS t = true ∧
    (t.map pyLower ∉ eForms ∨ t = ['e', '-', '1']) ∧
    t.getLast? ≠ some '+' ∧ t.getLast? ≠ some '-'

instance (t : List Char) : Decidable (canonicalTok t) := by
  unfold canonicalTok
  infer_instance

theorem cleanList_fixed (t : List Char) (h : canonicalTok t) : cleanList t = t := by
  obtain ⟨h1, h2, h3, h4, h5, h6, h7, h8, h9⟩ := h
  rw [cleanList, h1, sub_caret_id t h2, sub_us_id t h3, rmBrackets_id t h4 h5,
    sub_ds_id t h6]
  rcases h7 with h7 | h7
  · rw [if_neg h7, addChargeOne, addCharge_id '+' t h8, addCharge_id '-' t h9]
  · subst h7
    rw [if_pos (by decide)]

/-- Claim C10, counterexample.  `clean_formula` is not idempotent: the cleaned
form of `1+1-` is `+1-1`, which a second pass rewrites to `+-11` (the
digits-then-sign regex matches the `1-` adjacency created by the first
pass). -/
theorem C10_not_idempotent :
    clean_formula (clean_formula "1+1-") ≠ clean_formula "1+1-" := by
  decide

/-- Claim C10, amended.  `clean_formula` is idempotent on every input whose
first-pass output is a canonical token (in particular on all ordinary species
notations); the idempotence claim fails only on strings whose cleaned form
retains a digit-sign adjacency or leftover markup, such as `1+1-`. -/
theorem C10_idempotent_on_canonical (s : String)
    (h : canonicalTok (cleanList s.data)) :
    clean_formula (clean_formula s) = clean_formula s := by
  show String.mk (cleanList (String.mk (cleanList s.data)).data)
      = String.mk (cleanList s.data)
  rw [show (String.mk (cleanList s.data)).data = cleanList s.data from rfl,
    cleanList_fixed _ h]

/-- Witness for C10 on the token `Fe3+`, whose cleaned form `Fe+3` is
canonical. -/
theorem C10_idempotent_witness :
    canonicalTok (cleanList "Fe3+".data) ∧
      clean_formula (clean_formula "Fe3+") = clean_formula "Fe3+" :=
  ⟨by decide, C10_idempotent_on_canonical "Fe3+" (by decide)⟩

end ChemEq
